import Mathlib

/-!
Shallow embedding of the LC-3 virtual machine in `src/vm.c`.

The machine state (`memory`, `registers`, the `running` flag of the main
loop) is modelled as a record; the console is modelled by an `input` list
of pending bytes (one entry per `getchar` result) and an `output` list of
bytes already written.  All 16-bit quantities are natural numbers kept
below 2^16 by taking `% 65536` exactly where the C code truncates through
the `uint16_t` type (assignments into the register and memory arrays, and
the implicit conversion at a `uint16_t` parameter).  The declared length
of the C `memory` array (`uint16_t memory[UINT16_MAX]`) is recorded
separately as `MEMORY_LEN`; the access primitives below follow the
65536-word machine the rest of the code assumes.
-/

namespace LC3

/-- Register indices, from the `R_R0 .. R_COND` enum in vm.c. -/
def R_R0 : Nat := 0

def R_R7 : Nat := 7

def R_PC : Nat := 8

def R_COND : Nat := 9

/-- Condition flag values, from the `FL_POS/FL_ZRO/FL_NEG` enum in vm.c. -/
def FL_POS : Nat := 1

def FL_ZRO : Nat := 2

def FL_NEG : Nat := 4

/-- Number of elements of the C declaration `uint16_t memory[UINT16_MAX]`:
`UINT16_MAX` is 65535, so valid indices are `0 .. 65534`. -/
def MEMORY_LEN : Nat := 65535

/-- An address is within the bounds of the declared `memory` array. -/
def mem_inbounds (addr : Nat) : Prop := addr < MEMORY_LEN

/-- The machine state of vm.c: the `memory` and `registers` arrays, the
`running` flag of the main loop, plus the modelled console streams. -/
structure Machine where
  memory : Nat → Nat
  registers : Nat → Nat
  input : List Nat
  output : List Nat
  running : Bool

/-- Write a register; assignment into the `uint16_t` array truncates. -/
def setReg (m : Machine) (i v : Nat) : Machine :=
  { m with registers := fun j => if j = i then v % 65536 else m.registers j }

/-- `mem_write(uint16_t addr, uint16_t val)`: both parameters pass through
`uint16_t`, hence the `% 65536` on address and value. -/
def mem_write (m : Machine) (addr val : Nat) : Machine :=
  { m with memory := fun a => if a = addr % 65536 then val % 65536 else m.memory a }

/-- `mem_read(uint16_t addr)`: the address passes through `uint16_t`, and
the array holds `uint16_t` values, hence the `% 65536` on the result. -/
def mem_read (m : Machine) (addr : Nat) : Nat :=
  m.memory (addr % 65536) % 65536

/-- `sign_extend(uint16_t x, int bit_count)` from vm.c: if bit
`bit_count - 1` of `x` is set, OR in `0xFFFF << bit_count`; the result is
truncated by the `uint16_t` return type. -/
def sign_extend (x : Nat) (bit_count : Nat) : Nat :=
  if (x >>> (bit_count - 1)) &&& 1 = 1 then
    (x ||| (0xFFFF <<< bit_count)) % 65536
  else x

/-- `update_condition(uint16_t r)` from vm.c: sets `R_COND` from the value
of register `r` (ZRO when zero, NEG when the top bit is set, POS else). -/
def update_condition (m : Machine) (r : Nat) : Machine :=
  if m.registers r = 0 then setReg m R_COND FL_ZRO
  else if m.registers r >>> 15 ≠ 0 then setReg m R_COND FL_NEG
  else setReg m R_COND FL_POS

/-- OP_ADD handler. -/
def op_add (m : Machine) (instruction : Nat) : Machine :=
  let r0 := (instruction >>> 9) &&& 0x7
  let r1 := (instruction >>> 6) &&& 0x7
  let imm_flag := (instruction >>> 5) &&& 0x1
  let m1 :=
    if imm_flag ≠ 0 then
      setReg m r0 (m.registers r1 + sign_extend (instruction &&& 0x1F) 5)
    else
      let r2 := instruction &&& 0x7
      setReg m r0 (m.registers r1 + m.registers r2)
  update_condition m1 r0

/-- OP_AND handler.  vm.c computes the immediate flag with the logical
operator: `(instruction >> 5) && 0x1`, which is 1 exactly when
`instruction >> 5` is nonzero. -/
def op_and (m : Machine) (instruction : Nat) : Machine :=
  let r0 := (instruction >>> 9) &&& 0x7
  let r1 := (instruction >>> 6) &&& 0x7
  let imm_flag := if instruction >>> 5 ≠ 0 then 1 else 0
  let m1 :=
    if imm_flag ≠ 0 then
      setReg m r0 (m.registers r1 &&& sign_extend (instruction &&& 0x1F) 5)
    else
      let r2 := instruction &&& 0x7
      setReg m r0 (m.registers r1 &&& m.registers r2)
  update_condition m1 r0

/-- OP_NOT handler: `~registers[r1]` truncated to 16 bits is the XOR with
0xFFFF for values below 2^16. -/
def op_not (m : Machine) (instruction : Nat) : Machine :=
  let r0 := (instruction >>> 9) &&& 0x7
  let r1 := (instruction >>> 6) &&& 0x7
  update_condition (setReg m r0 (m.registers r1 ^^^ 0xFFFF)) r0

/-- OP_BR handler. -/
def op_br (m : Machine) (instruction : Nat) : Machine :=
  let cond := (instruction >>> 9) &&& 0x7
  if cond &&& m.registers R_COND ≠ 0 then
    setReg m R_PC (m.registers R_PC + sign_extend (instruction &&& 0x1FF) 9)
  else m

/-- OP_JMP handler. -/
def op_jmp (m : Machine) (instruction : Nat) : Machine :=
  let br := (instruction >>> 6) &&& 0x7
  setReg m R_PC (m.registers br)

/-- OP_JSR handler, in the order vm.c executes it: `registers[R_R7]` is
assigned first, and in register mode `registers[br]` is read afterwards. -/
def op_jsr (m : Machine) (instruction : Nat) : Machine :=
  let m1 := setReg m R_R7 (m.registers R_PC)
  let b11 := (instruction >>> 11) &&& 0x1
  if b11 ≠ 0 then
    setReg m1 R_PC (m1.registers R_PC + sign_extend (instruction &&& 0x7FF) 11)
  else
    let br := (instruction >>> 6) &&& 0x7
    setReg m1 R_PC (m1.registers br)

/-- OP_LD handler. -/
def op_ld (m : Machine) (instruction : Nat) : Machine :=
  let r0 := (instruction >>> 9) &&& 0x7
  let offset := sign_extend (instruction &&& 0x1FF) 9
  update_condition (setReg m r0 (mem_read m (m.registers R_PC + offset))) r0

/-- OP_LDI handler, as vm.c writes it: the statement `r0 = mem_read(addr)`
overwrites the local variable holding the destination register index, so
no general register is written; `update_condition` is then called with the
loaded value as the register index. -/
def op_ldi (m : Machine) (instruction : Nat) : Machine :=
  let r0 := (instruction >>> 9) &&& 0x7
  let offset := sign_extend (instruction &&& 0x1FF) 9
  let addr := mem_read m (m.registers R_PC + offset)
  let r0 := mem_read m addr
  update_condition m r0

/-- OP_LDR handler. -/
def op_ldr (m : Machine) (instruction : Nat) : Machine :=
  let r0 := (instruction >>> 9) &&& 0x7
  let br := (instruction >>> 6) &&& 0x7
  let offset := sign_extend (instruction &&& 0x3F) 6
  update_condition (setReg m r0 (mem_read m (m.registers br + offset))) r0

/-- OP_LEA handler. -/
def op_lea (m : Machine) (instruction : Nat) : Machine :=
  let r0 := (instruction >>> 9) &&& 0x7
  let offset := sign_extend (instruction &&& 0x1FF) 9
  update_condition (setReg m r0 (m.registers R_PC + offset)) r0

/-- OP_ST handler. -/
def op_st (m : Machine) (instruction : Nat) : Machine :=
  let r0 := (instruction >>> 9) &&& 0x7
  let offset := sign_extend (instruction &&& 0x1FF) 9
  mem_write m (m.registers R_PC + offset) (m.registers r0)

/-- OP_STI handler. -/
def op_sti (m : Machine) (instruction : Nat) : Machine :=
  let r0 := (instruction >>> 9) &&& 0x7
  let offset := sign_extend (instruction &&& 0x1FF) 9
  let addr := mem_read m (m.registers R_PC + offset)
  mem_write m addr (m.registers r0)

/-- OP_STR handler.  vm.c masks the 6-bit offset field with `0x2F`. -/
def op_str (m : Machine) (instruction : Nat) : Machine :=
  let r0 := (instruction >>> 9) &&& 0x7
  let br := (instruction >>> 6) &&& 0x7
  let offset := sign_extend (instruction &&& 0x2F) 6
  mem_write m (m.registers br + offset) (m.registers r0)

/-- TRAP_GETC: `registers[R_R0] = (uint16_t)getchar()`.  A pending byte is
stored as is (bytes are below 256, so the cast to `uint16_t` keeps them);
at end of input `getchar` returns `EOF` (-1), whose `uint16_t` cast is
0xFFFF. -/
def trap_getc (m : Machine) : Machine :=
  match m.input with
  | [] => setReg m R_R0 0xFFFF
  | b :: rest => { setReg m R_R0 (b % 65536) with input := rest }

/-- TRAP_OUT: `putc((char)registers[R_R0], stdout)` emits the low byte. -/
def trap_out (m : Machine) : Machine :=
  { m with output := m.output ++ [m.registers R_R0 % 256] }

/-- The byte sequence emitted by the TRAP_PUTS loop: read words from
`addr` on, stopping at the first zero word, emitting each low byte.  The
C loop walks a raw pointer; the walk is modelled through `mem_read` with
enough fuel to cover the whole address space. -/
def puts_chars (m : Machine) (addr : Nat) : Nat → List Nat
  | 0 => []
  | fuel + 1 =>
    if mem_read m addr = 0 then []
    else (mem_read m addr % 256) :: puts_chars m (addr + 1) fuel

/-- TRAP_PUTS handler. -/
def trap_puts (m : Machine) : Machine :=
  { m with output := m.output ++ puts_chars m (m.registers R_R0) 65536 }

/-- TRAP_IN: prompt (the prompt text itself is host console dressing and
is not modelled in the byte stream), read one char, echo it, store it in
R0.  The C `char` is taken as signed 8-bit, so the `uint16_t` cast
sign-extends bytes at or above 128, and stores 0xFFFF at end of input. -/
def trap_in (m : Machine) : Machine :=
  match m.input with
  | [] => { setReg m R_R0 0xFFFF with output := m.output ++ [255] }
  | b :: rest =>
    { setReg m R_R0 (if b % 256 < 128 then b % 256 else b % 256 + 65280) with
        input := rest, output := m.output ++ [b % 256] }

/-- The byte sequence emitted by the TRAP_PUTSP loop: for each word until
the first zero word, emit the low byte, then the high byte when it is
nonzero. -/
def putsp_chars (m : Machine) (addr : Nat) : Nat → List Nat
  | 0 => []
  | fuel + 1 =>
    if mem_read m addr = 0 then []
    else
      ((mem_read m addr &&& 0xFF) ::
        (if mem_read m addr >>> 8 = 0 then [] else [mem_read m addr >>> 8])) ++
        putsp_chars m (addr + 1) fuel

/-- TRAP_PUTSP handler. -/
def trap_putsp (m : Machine) : Machine :=
  { m with output := m.output ++ putsp_chars m (m.registers R_R0) 65536 }

/-- TRAP_HALT: `puts("HALT")` emits the bytes of "HALT" and a newline,
then the loop flag is cleared. -/
def trap_halt (m : Machine) : Machine :=
  { m with output := m.output ++ [72, 65, 76, 84, 10], running := false }

/-- The TRAP dispatch switch on the low 8 bits of the instruction. -/
def op_trap (m : Machine) (instruction : Nat) : Machine :=
  let vector := instruction &&& 0xFF
  if vector = 0x20 then trap_getc m
  else if vector = 0x21 then trap_out m
  else if vector = 0x22 then trap_puts m
  else if vector = 0x23 then trap_in m
  else if vector = 0x24 then trap_putsp m
  else if vector = 0x25 then trap_halt m
  else m

/-- The opcode dispatch switch of the main loop (opcode numbering from the
`OP_BR = 0, ...` enum); OP_RTI (8), OP_RES (13) and the default case do
nothing. -/
def exec_op (m : Machine) (instruction : Nat) : Machine :=
  let op := instruction >>> 12
  if op = 0 then op_br m instruction
  else if op = 1 then op_add m instruction
  else if op = 2 then op_ld m instruction
  else if op = 3 then op_st m instruction
  else if op = 4 then op_jsr m instruction
  else if op = 5 then op_and m instruction
  else if op = 6 then op_ldr m instruction
  else if op = 7 then op_str m instruction
  else if op = 9 then op_not m instruction
  else if op = 10 then op_ldi m instruction
  else if op = 11 then op_sti m instruction
  else if op = 12 then op_jmp m instruction
  else if op = 14 then op_lea m instruction
  else if op = 15 then op_trap m instruction
  else m

/-- One iteration of the main loop: when running, fetch the instruction at
`PC`, post-increment `PC` (`mem_read(registers[R_PC]++)`), and execute. -/
def step (m : Machine) : Machine :=
  if m.running then
    let instruction := mem_read m (m.registers R_PC)
    exec_op (setReg m R_PC (m.registers R_PC + 1)) instruction
  else m

/-! ### Concrete machines used to exercise the handlers -/

/-- Memory: LDI `0xA0FF` (DR = R0, offset9 = 0xFF) at 0x3000, the address
0x4000 at 0x3100, the value 0x002A at 0x4000; PC = 0x3000.  This is the
LDI round-trip scenario of the spec: 0x3001 + 0xFF = 0x3100. -/
def ldiMach : Machine where
  memory := fun a =>
    if a = 0x3000 then 0xA0FF
    else if a = 0x3100 then 0x4000
    else if a = 0x4000 then 0x002A
    else 0
  registers := fun r => if r = R_PC then 0x3000 else 0
  input := []
  output := []
  running := true

/-- Memory: AND `0x5042` (DR = R0, SR1 = R1, bit 5 = 0, SR2 = R2) at
0x3000; R1 = 0x0F0F, R2 = 0x00FF, PC = 0x3000. -/
def andMach : Machine where
  memory := fun a => if a = 0x3000 then 0x5042 else 0
  registers := fun r =>
    if r = R_PC then 0x3000
    else if r = 1 then 0x0F0F
    else if r = 2 then 0x00FF
    else 0
  input := []
  output := []
  running := true

/-- Memory: STR `0x7050` (SR = R0, BaseR = R1, offset6 = 0x10) at 0x3000;
R0 = 0x1234, R1 = 0x4000, PC = 0x3000. -/
def strMach : Machine where
  memory := fun a => if a = 0x3000 then 0x7050 else 0
  registers := fun r =>
    if r = R_PC then 0x3000
    else if r = 0 then 0x1234
    else if r = 1 then 0x4000
    else 0
  input := []
  output := []
  running := true

/-- Memory: JSR `0x41C0` (bit 11 = 0, BaseR = R7) at 0x3000; R7 = 0x5000,
PC = 0x3000. -/
def jsrMach : Machine where
  memory := fun a => if a = 0x3000 then 0x41C0 else 0
  registers := fun r =>
    if r = R_PC then 0x3000
    else if r = 7 then 0x5000
    else 0
  input := []
  output := []
  running := true

/-- Memory: LEA `0xE3FF` (DR = R1, offset9 = 0x1FF, i.e. -1) at 0x3000;
PC = 0x3000.  The PC-relative test point of the spec. -/
def leaMach : Machine where
  memory := fun a => if a = 0x3000 then 0xE3FF else 0
  registers := fun r => if r = R_PC then 0x3000 else 0
  input := []
  output := []
  running := true

/-- A machine sitting at a TRAP GETC instruction with one pending input
byte 0x41. -/
def getcMach : Machine where
  memory := fun a => if a = 0x3000 then 0xF020 else 0
  registers := fun r => if r = R_PC then 0x3000 else 0
  input := [0x41]
  output := []
  running := true

/-- The same machine with the input exhausted. -/
def getcEmptyMach : Machine where
  memory := fun a => if a = 0x3000 then 0xF020 else 0
  registers := fun r => if r = R_PC then 0x3000 else 0
  input := []
  output := []
  running := true

/-- Reference decode: a 16-bit word reinterpreted as a signed
twos-complement value. -/
def toSigned16 (w : Nat) : Int := if w < 32768 then (w : Int) else (w : Int) - 65536

/-- The mathematical twos-complement value of an n-bit pattern. -/
def twoCompVal (n w : Nat) : Int :=
  if w < 2 ^ (n - 1) then (w : Int) else (w : Int) - ((2 ^ n : Nat) : Int)

/-- The cycle about to execute fetches an LD, LDR or LEA instruction, or a
BR whose condition bits do not intersect the current flags. -/
def readonly_cycle (m : Machine) : Prop :=
  mem_read m (m.registers R_PC) >>> 12 = 2 ∨
  mem_read m (m.registers R_PC) >>> 12 = 6 ∨
  mem_read m (m.registers R_PC) >>> 12 = 14 ∨
  (mem_read m (m.registers R_PC) >>> 12 = 0 ∧
    ((mem_read m (m.registers R_PC) >>> 9) &&& 0x7) &&& m.registers R_COND = 0)

/-! ### Helper lemmas -/

theorem setReg_memory (m : Machine) (i v : Nat) : (setReg m i v).memory = m.memory := rfl

theorem setReg_registers_same (m : Machine) (i v : Nat) :
    (setReg m i v).registers i = v % 65536 := by
  simp [setReg]

theorem setReg_registers_ne (m : Machine) (i v j : Nat) (h : j ≠ i) :
    (setReg m i v).registers j = m.registers j := by
  simp [setReg, h]

theorem update_condition_memory (m : Machine) (r : Nat) :
    (update_condition m r).memory = m.memory := by
  unfold update_condition
  split_ifs <;> rfl

theorem update_condition_registers_ne (m : Machine) (r i : Nat) (h : i ≠ R_COND) :
    (update_condition m r).registers i = m.registers i := by
  unfold update_condition
  split_ifs <;> exact setReg_registers_ne _ _ _ _ h

theorem update_condition_flag (m : Machine) (r : Nat) :
    (update_condition m r).registers R_COND = FL_POS ∨
    (update_condition m r).registers R_COND = FL_ZRO ∨
    (update_condition m r).registers R_COND = FL_NEG := by
  unfold update_condition
  split_ifs <;> simp [setReg_registers_same, FL_POS, FL_ZRO, FL_NEG]

theorem op_ld_memory (m : Machine) (i : Nat) : (op_ld m i).memory = m.memory := by
  unfold op_ld
  rw [update_condition_memory, setReg_memory]

theorem op_ldr_memory (m : Machine) (i : Nat) : (op_ldr m i).memory = m.memory := by
  unfold op_ldr
  rw [update_condition_memory, setReg_memory]

theorem op_lea_memory (m : Machine) (i : Nat) : (op_lea m i).memory = m.memory := by
  unfold op_lea
  rw [update_condition_memory, setReg_memory]

theorem op_br_memory (m : Machine) (i : Nat) : (op_br m i).memory = m.memory := by
  simp only [op_br]
  split_ifs <;> rfl

theorem step_readonly_memory (m : Machine) (h : readonly_cycle m) :
    (step m).memory = m.memory := by
  unfold step
  cases hr : m.running
  · simp
  · unfold readonly_cycle at h
    rcases h with h | h | h | ⟨h, hc⟩ <;> simp only [exec_op, h] <;> norm_num
    · rw [op_ld_memory, setReg_memory]
    · rw [op_ldr_memory, setReg_memory]
    · rw [op_lea_memory, setReg_memory]
    · rw [op_br_memory, setReg_memory]

/-! ### Claim theorems -/

/-- C1: executing the LDI round-trip scenario (Memory[0x3100] = 0x4000,
Memory[0x4000] = 0x002A, LDI with DR = R0 reaching 0x3100) leaves the
destination register at its old value 0 instead of 0x002A: vm.c assigns
the loaded value to the local variable holding the register index, never
to `registers[DR]`; `update_condition` then runs on register index 0x2A,
whose (default zero) value sets the ZRO flag. -/
theorem C1_ldi_dest_never_written :
    (step ldiMach).registers 0 = 0 ∧ (step ldiMach).registers 0 ≠ 0x002A ∧
      (step ldiMach).registers R_COND = FL_ZRO := by
  refine ⟨by decide, by decide, by decide⟩

/-- C2: on the AND instruction 0x5042 (bit 5 = 0, so register mode per the
claim) with R1 = 0x0F0F and R2 = 0x00FF, the claim demands
DR = 0x0F0F AND 0x00FF = 0x000F, but vm.c computes the immediate flag
with a logical AND (`(instruction >> 5) && 0x1`), which is 1 for every
AND instruction, so it takes the immediate branch and stores
0x0F0F AND sign_extend(0x02, 5) = 0x0002. -/
theorem C2_and_always_immediate :
    (step andMach).registers 0 = 0x0002 ∧ (step andMach).registers 0 ≠ 0x000F := by
  refine ⟨by decide, by decide⟩

/-- C3: on the STR instruction 0x7050 (offset6 field = 0x10) with
BaseR = R1 = 0x4000 and SR = R0 = 0x1234, the claim demands the store at
0x4000 + 0x10 = 0x4010, but vm.c masks the offset field with 0x2F, which
drops bit 4, so the store lands at 0x4000 and 0x4010 is untouched. -/
theorem C3_str_wrong_mask :
    (step strMach).memory 0x4010 = 0 ∧ (step strMach).memory 0x4000 = 0x1234 := by
  refine ⟨by decide, by decide⟩

/-- C4: on the register-mode JSR 0x41C0 with BaseR = R7, old R7 = 0x5000
and PC = 0x3000, the claim demands PC = 0x5000 (the value BaseR held
before R7 is overwritten), but vm.c overwrites R7 with the incremented PC
first and then reads `registers[BaseR]`, so PC becomes 0x3001. -/
theorem C4_jsr_reads_overwritten_r7 :
    (step jsrMach).registers R_PC = 0x3001 ∧
      (step jsrMach).registers R_PC ≠ 0x5000 ∧
      (step jsrMach).registers R_R7 = 0x3001 := by
  refine ⟨by decide, by decide, by decide⟩

/-- C5: the C declaration `uint16_t memory[UINT16_MAX]` has 65535
elements, not 65536, so the address 0xFFFF is not within the bounds of
the array: both `mem_read(0xFFFF)` and `mem_write(0xFFFF, v)` index one
element past the end. -/
theorem C5_memory_array_one_short :
    MEMORY_LEN = 65535 ∧ ¬ mem_inbounds 0xFFFF := by
  refine ⟨by decide, by unfold mem_inbounds; decide⟩

/-- C6: every LEA stores (PC after the fetch increment) plus the
sign-extended 9-bit offset, modulo 2^16, into the destination register
DR = bits 11:9. -/
theorem C6_lea_pc_relative (m : Machine) (hrun : m.running = true)
    (hop : mem_read m (m.registers R_PC) >>> 12 = 14) :
    (step m).registers ((mem_read m (m.registers R_PC) >>> 9) &&& 0x7) =
      ((m.registers R_PC + 1) % 65536 +
        sign_extend (mem_read m (m.registers R_PC) &&& 0x1FF) 9) % 65536 := by
  have hdr : (mem_read m (m.registers R_PC) >>> 9) &&& 0x7 ≤ 7 := Nat.and_le_right
  simp only [step, hrun, if_true, exec_op, hop]
  norm_num
  unfold op_lea
  rw [update_condition_registers_ne]
  · rw [setReg_registers_same, setReg_registers_same]
    omega
  · unfold R_COND; omega

/-- C6 witness: the LEA at PC = 0x3000 with offset9 = -1 (0x1FF) stores
0x3001 - 1 = 0x3000 in its destination register. -/
theorem C6_lea_witness : (step leaMach).registers 1 = 0x3000 := by
  have h := C6_lea_pc_relative leaMach rfl (by decide)
  exact h.trans (by decide)

/-- C9: a run of cycles that only fetches LD, LDR, LEA, or untaken BR
instructions leaves every word of memory unchanged. -/
theorem C9_readonly_frame (n : Nat) (m : Machine)
    (h : ∀ k, k < n → readonly_cycle (step^[k] m)) (a : Nat) :
    (step^[n] m).memory a = m.memory a := by
  induction n with
  | zero => simp
  | succ k ih =>
    rw [Function.iterate_succ_apply',
      step_readonly_memory _ (h k (Nat.lt_succ_self k))]
    exact ih (fun j hj => h j (Nat.lt_succ_of_lt hj))

/-- C9 witness: one cycle of the LEA machine leaves memory unchanged at a
sample address. -/
theorem C9_readonly_witness : (step^[1] leaMach).memory 0x4000 = leaMach.memory 0x4000 := by
  apply C9_readonly_frame
  intro k hk
  have hk0 : k = 0 := by omega
  subst hk0
  rw [Function.iterate_zero, id_eq]
  unfold readonly_cycle
  decide

/-- C10: the TRAP vector 0x20 dispatches to the GETC action, which stores
the next input byte zero-extended in R0, or 0xFFFF (the `uint16_t` cast of
the EOF value -1) when input is exhausted, and changes no memory word and
no other register. -/
theorem C10_getc_byte_or_eof (m : Machine) :
    op_trap m 0xF020 = trap_getc m ∧
    (m.input = [] → (trap_getc m).registers R_R0 = 0xFFFF) ∧
    (∀ b rest, m.input = b :: rest → b < 256 → (trap_getc m).registers R_R0 = b) ∧
    (∀ a, (trap_getc m).memory a = m.memory a) ∧
    (∀ i, i ≠ R_R0 → (trap_getc m).registers i = m.registers i) := by
  refine ⟨rfl, ?_, ?_, ?_, ?_⟩
  · intro h
    simp [trap_getc, h, setReg_registers_same]
  · intro b rest h hb
    simp only [trap_getc, h]
    show (setReg m R_R0 (b % 65536)).registers R_R0 = b
    rw [setReg_registers_same]
    omega
  · intro a
    cases h : m.input <;> simp [trap_getc, h, setReg]
  · intro i hi
    cases h : m.input <;> simp [trap_getc, h, setReg, hi]

/-- C10 witness: with pending byte 0x41 GETC stores 0x41; with exhausted
input it stores 0xFFFF. -/
theorem C10_getc_witness :
    (trap_getc getcMach).registers R_R0 = 0x41 ∧
    (trap_getc getcEmptyMach).registers R_R0 = 0xFFFF :=
  ⟨(C10_getc_byte_or_eof getcMach).2.2.1 0x41 [] rfl (by decide),
   (C10_getc_byte_or_eof getcEmptyMach).2.1 rfl⟩

theorem op_br_cond (m : Machine) (i : Nat) :
    (op_br m i).registers R_COND = m.registers R_COND := by
  simp only [op_br]
  split_ifs with h
  · exact setReg_registers_ne _ _ _ _ (by unfold R_PC R_COND; omega)
  · rfl

theorem op_jmp_cond (m : Machine) (i : Nat) :
    (op_jmp m i).registers R_COND = m.registers R_COND := by
  simp only [op_jmp]
  exact setReg_registers_ne _ _ _ _ (by unfold R_PC R_COND; omega)

theorem op_jsr_cond (m : Machine) (i : Nat) :
    (op_jsr m i).registers R_COND = m.registers R_COND := by
  simp only [op_jsr]
  split_ifs with h <;>
    rw [setReg_registers_ne _ _ _ _ (by unfold R_PC R_COND; omega),
      setReg_registers_ne _ _ _ _ (by unfold R_R7 R_COND; omega)]

theorem op_st_cond (m : Machine) (i : Nat) :
    (op_st m i).registers R_COND = m.registers R_COND := rfl

theorem op_sti_cond (m : Machine) (i : Nat) :
    (op_sti m i).registers R_COND = m.registers R_COND := rfl

theorem op_str_cond (m : Machine) (i : Nat) :
    (op_str m i).registers R_COND = m.registers R_COND := rfl

theorem op_trap_cond (m : Machine) (i : Nat) :
    (op_trap m i).registers R_COND = m.registers R_COND := by
  simp only [op_trap]
  split_ifs <;>
    first
      | rfl
      | (cases h : m.input <;>
          simp [trap_getc, trap_in, h, setReg, R_R0, R_COND])

theorem C8_condition_flags :
    (∀ (m : Machine) (r : Nat), r ≤ 7 → m.registers r < 65536 →
      ((update_condition m r).registers R_COND = FL_ZRO ↔ m.registers r = 0) ∧
      ((update_condition m r).registers R_COND = FL_NEG ↔
        (m.registers r ≠ 0 ∧ m.registers r >>> 15 = 1)) ∧
      ((update_condition m r).registers R_COND = FL_POS ↔
        (m.registers r ≠ 0 ∧ m.registers r >>> 15 = 0)) ∧
      ((update_condition m r).registers R_COND = FL_POS ∨
       (update_condition m r).registers R_COND = FL_ZRO ∨
       (update_condition m r).registers R_COND = FL_NEG)) ∧
    (∀ m : Machine,
      (m.registers R_COND = FL_POS ∨ m.registers R_COND = FL_ZRO ∨
        m.registers R_COND = FL_NEG) →
      ((step m).registers R_COND = FL_POS ∨ (step m).registers R_COND = FL_ZRO ∨
        (step m).registers R_COND = FL_NEG)) := by
  constructor
  · intro m r h1 h2
    have hv : m.registers r >>> 15 = m.registers r / 32768 := by
      rw [Nat.shiftRight_eq_div_pow]
    unfold update_condition
    split_ifs with hz hn
    · rw [setReg_registers_same]
      simp [FL_POS, FL_ZRO, FL_NEG, hz]
    · have h15 : m.registers r >>> 15 = 1 := by
        rw [hv]
        rw [hv] at hn
        omega
      rw [setReg_registers_same]
      simp [FL_POS, FL_ZRO, FL_NEG, hz, h15]
    · have h15 : m.registers r >>> 15 = 0 := by
        rw [hv]
        rw [hv] at hn
        omega
      rw [setReg_registers_same]
      simp [FL_POS, FL_ZRO, FL_NEG, hz, h15]
  · intro m h
    unfold step
    cases hr : m.running
    · simpa using h
    · have hinstr : mem_read m (m.registers R_PC) < 65536 :=
        Nat.mod_lt _ (by norm_num)
      have hop : mem_read m (m.registers R_PC) >>> 12 < 16 := by
        rw [Nat.shiftRight_eq_div_pow]
        omega
      have hm1 : (setReg m R_PC (m.registers R_PC + 1)).registers R_COND =
          m.registers R_COND :=
        setReg_registers_ne _ _ _ _ (by unfold R_PC R_COND; omega)
      obtain ⟨o, ho, hlt⟩ :
          ∃ o, mem_read m (m.registers R_PC) >>> 12 = o ∧ o < 16 := ⟨_, rfl, hop⟩
      interval_cases o <;> simp only [exec_op, ho] <;> norm_num
      · rw [op_br_cond, hm1]; exact h
      · simp only [op_add]; exact update_condition_flag _ _
      · simp only [op_ld]; exact update_condition_flag _ _
      · rw [op_st_cond, hm1]; exact h
      · rw [op_jsr_cond, hm1]; exact h
      · simp only [op_and]; exact update_condition_flag _ _
      · simp only [op_ldr]; exact update_condition_flag _ _
      · rw [op_str_cond, hm1]; exact h
      · rw [hm1]; exact h
      · simp only [op_not]; exact update_condition_flag _ _
      · simp only [op_ldi]; exact update_condition_flag _ _
      · rw [op_sti_cond, hm1]; exact h
      · rw [op_jmp_cond, hm1]; exact h
      · rw [hm1]; exact h
      · simp only [op_lea]; exact update_condition_flag _ _
      · rw [op_trap_cond, hm1]; exact h

theorem C8_condition_witness :
    (update_condition getcMach 0).registers R_COND = FL_ZRO :=
  ((C8_condition_flags.1 getcMach 0 (by decide) (by decide)).1).mpr rfl

theorem lor_mul_pow_eq_add (a m n : Nat) (h : a < 2 ^ n) :
    2 ^ n * m ||| a = 2 ^ n * m + a := by
  apply Nat.eq_of_testBit_eq
  intro j
  rw [Nat.testBit_lor, Nat.testBit_mul_pow_two_add m h j, Nat.testBit_mul_pow_two]
  by_cases hj : j < n
  · simp [hj, Nat.not_le.mpr hj]
  · have ha : a.testBit j = false :=
      Nat.testBit_lt_two_pow
        (lt_of_lt_of_le h (Nat.pow_le_pow_right (by norm_num) (Nat.le_of_not_lt hj)))
    simp [hj, Nat.le_of_not_lt hj, ha]

theorem sign_extend_toSigned (w n : Nat) (h1 : 1 ≤ n) (h2 : n ≤ 16) (hw : w < 2 ^ n) :
    toSigned16 (sign_extend w n) = twoCompVal n w := by
  have hn : n - 1 + 1 = n := by omega
  have hpow : (2 : Nat) ^ n ≤ 65536 := by
    calc (2 : Nat) ^ n ≤ 2 ^ 16 := Nat.pow_le_pow_right (by norm_num) h2
    _ = 65536 := by norm_num
  have hhalf : (2 : Nat) ^ (n - 1) ≤ 32768 := by
    calc (2 : Nat) ^ (n - 1) ≤ 2 ^ 15 := Nat.pow_le_pow_right (by norm_num) (by omega)
    _ = 32768 := by norm_num
  have hsplit : (2 : Nat) ^ n = 2 ^ (n - 1) * 2 := by
    rw [← pow_succ, hn]
  by_cases hlt : w < 2 ^ (n - 1)
  · have hbit : w >>> (n - 1) = 0 := by
      rw [Nat.shiftRight_eq_div_pow]
      exact Nat.div_eq_of_lt hlt
    unfold sign_extend
    rw [hbit, if_neg (by decide)]
    unfold toSigned16 twoCompVal
    rw [if_pos (by omega), if_pos hlt]
  · have hge : 2 ^ (n - 1) ≤ w := Nat.le_of_not_lt hlt
    have hbit : w >>> (n - 1) = 1 := by
      rw [Nat.shiftRight_eq_div_pow]
      apply Nat.div_eq_of_lt_le
      · omega
      · omega
    unfold sign_extend
    rw [hbit, if_pos (by decide)]
    rw [Nat.shiftLeft_eq]
    have hor : w ||| 65535 * 2 ^ n = 2 ^ n * 65535 + w := by
      rw [Nat.lor_comm, Nat.mul_comm 65535 (2 ^ n)]
      exact lor_mul_pow_eq_add w 65535 n hw
    rw [hor]
    have hmod : (2 ^ n * 65535 + w) % 65536 = 65536 - 2 ^ n + w := by
      have h2n : 2 ≤ 2 ^ n := by omega
      omega
    rw [hmod]
    unfold toSigned16 twoCompVal
    rw [if_neg (by omega), if_neg (by omega)]
    have hcast : ((65536 - 2 ^ n + w : Nat) : Int) =
        65536 - ((2 ^ n : Nat) : Int) + (w : Int) := by
      push_cast [hpow]
      ring
    rw [hcast]
    omega

/-- C7: for every 16-bit value and every bit count n in 1..16, the
sign-extension of the low n bits of the value, reinterpreted as a signed
16-bit twos-complement word, is the mathematical twos-complement value of
those n bits. -/
theorem C7_sign_extend_correct (v n : Nat) (h1 : 1 ≤ n) (h2 : n ≤ 16) :
    toSigned16 (sign_extend (v &&& (2 ^ n - 1)) n) = twoCompVal n (v &&& (2 ^ n - 1)) := by
  rw [Nat.and_pow_two_sub_one_eq_mod]
  exact sign_extend_toSigned _ n h1 h2 (Nat.mod_lt _ (Nat.two_pow_pos n))

/-- C7 witness: the 9-bit pattern 0x1F2 decodes to -14 both through the
code and through the reference decode. -/
theorem C7_sign_extend_witness :
    toSigned16 (sign_extend (0x1F2 &&& (2 ^ 9 - 1)) 9) = twoCompVal 9 (0x1F2 &&& (2 ^ 9 - 1)) ∧
    toSigned16 (sign_extend 0x1F2 9) = -14 :=
  ⟨C7_sign_extend_correct 0x1F2 9 (by decide) (by decide), by decide⟩

end LC3
